import Mathlib

/-!
Shallow embedding of the pngme chunk codec (src/src/chunk_type.rs,
src/src/chunk.rs, src/src/main.rs).  Bytes are modelled as `Nat`
(in the source they are `u8`, so concrete byte streams have entries
below 256); 32-bit machine arithmetic is modelled on `Nat` with
explicit `% 2 ^ 32` where overflow matters.  Fallible operations
return `Except` with an error enum mirroring the distinct `anyhow!`
error branches of the source.
-/

namespace Pngme

/-- Rust `u8::is_ascii_alphabetic`: the byte is in `b'A'..=b'Z'` or
`b'a'..=b'z'`. -/
def isAsciiAlphabetic (x : Nat) : Bool :=
  (65 ≤ x && x ≤ 90) || (97 ≤ x && x ≤ 122)

/-- chunk_type.rs `ChunkType`: a 4-byte chunk type code, stored as the
four raw bytes (source field `content: [u8; 4]`). -/
structure ChunkType where
  b0 : Nat
  b1 : Nat
  b2 : Nat
  b3 : Nat
deriving DecidableEq

/-- chunk_type.rs `bytes()`: the four raw bytes of the tag, in order. -/
def ChunkType.bytes (t : ChunkType) : List Nat :=
  [t.b0, t.b1, t.b2, t.b3]

/-- chunk_type.rs `is_valid_byte`: alias of `u8::is_ascii_alphabetic`. -/
def ChunkType.is_valid_byte (x : Nat) : Bool :=
  isAsciiAlphabetic x

/-- chunk_type.rs `is_valid_chunk_type`: every byte passes
`is_valid_byte`. -/
def ChunkType.is_valid_chunk_type (x : List Nat) : Bool :=
  x.all ChunkType.is_valid_byte

/-- chunk_type.rs errors are `anyhow!` strings; both failure branches use
the same message, modelled by a single constructor. -/
inductive TagError where
  | formatError : TagError
deriving DecidableEq

/-- chunk_type.rs `try_from_bytes` (also the body of
`TryFrom<[u8; 4]> for ChunkType`): accept the four raw bytes only when
all of them are ASCII alphabetic. -/
def ChunkType.try_from_bytes (a b c d : Nat) : Except TagError ChunkType :=
  if ChunkType.is_valid_chunk_type [a, b, c, d] then
    Except.ok ⟨a, b, c, d⟩
  else
    Except.error TagError.formatError

/-- chunk_type.rs `try_from_str` (also the body of `FromStr`): the string
is modelled by its UTF-8 byte list; require byte length 4, then defer to
`try_from_bytes`.  The inner wildcard arm is the source's `try_into()?`
conversion failure, unreachable once the length is 4. -/
def ChunkType.try_from_str (s : List Nat) : Except TagError ChunkType :=
  if s.length = 4 then
    match s with
    | [a, b, c, d] => ChunkType.try_from_bytes a b c d
    | _ => Except.error TagError.formatError
  else
    Except.error TagError.formatError

/-- chunk_type.rs `is_critical`: `content[0] >> 5 & 1 == 0`. -/
def ChunkType.is_critical (t : ChunkType) : Bool :=
  (t.b0 >>> 5) &&& 1 == 0

/-- chunk_type.rs `is_public`: `content[1] >> 5 & 1 == 0`. -/
def ChunkType.is_public (t : ChunkType) : Bool :=
  (t.b1 >>> 5) &&& 1 == 0

/-- chunk_type.rs `is_reserved_bit_valid`: `content[2] >> 5 & 1 == 0`. -/
def ChunkType.is_reserved_bit_valid (t : ChunkType) : Bool :=
  (t.b2 >>> 5) &&& 1 == 0

/-- chunk_type.rs `is_safe_to_copy`: `content[3] >> 5 & 1 == 1`. -/
def ChunkType.is_safe_to_copy (t : ChunkType) : Bool :=
  (t.b3 >>> 5) &&& 1 == 1

/-- chunk_type.rs `is_valid`: all bytes ASCII alphabetic and the reserved
bit is valid. -/
def ChunkType.is_valid (t : ChunkType) : Bool :=
  ChunkType.is_valid_chunk_type t.bytes && t.is_reserved_bit_valid

/-- The reflected CRC-32 polynomial 0xEDB88320 used by
`CRC_32_ISO_HDLC` in the `crc` crate. -/
def CRC32_POLY : Nat := 0xEDB88320

/-- One bit step of the reflected CRC-32: shift right, and xor the
polynomial in when the shifted-out bit was 1.  Values stay below
`2 ^ 32`. -/
def crc32_step_bit (c : Nat) : Nat :=
  if c % 2 = 1 then (c >>> 1) ^^^ CRC32_POLY else c >>> 1

/-- One byte step of the reflected CRC-32: xor the byte into the low
bits, then run eight bit steps. -/
def crc32_update_byte (c b : Nat) : Nat :=
  crc32_step_bit (crc32_step_bit (crc32_step_bit (crc32_step_bit
    (crc32_step_bit (crc32_step_bit (crc32_step_bit (crc32_step_bit
      (c ^^^ b))))))))

/-- CRC-32/ISO-HDLC over a byte list: init 0xFFFFFFFF, bytewise update,
final xor with 0xFFFFFFFF.  This is the checksum the `crc` crate
computes for the `CRC_32_ISO_HDLC` parameters used in chunk.rs. -/
def crc32_raw (l : List Nat) : Nat :=
  (l.foldl crc32_update_byte 0xFFFFFFFF) ^^^ 0xFFFFFFFF

/-- chunk.rs `compute_crc`: digest the 4 chunk-type bytes, then the data
bytes, with `CRC_32_ISO_HDLC`. -/
def compute_crc (chunk_code : List Nat) (data : List Nat) : Nat :=
  crc32_raw (chunk_code ++ data)

/-- chunk.rs `Chunk`: a chunk type plus payload bytes.  The source's
`crc: LazyCell<u32>` memoizes `compute_crc` of the other two fields and
is therefore a derived value (`Chunk.crc` below), not independent
state. -/
structure Chunk where
  chunk_type : ChunkType
  data : List Nat
deriving DecidableEq

/-- chunk.rs `Chunk::new`. -/
def Chunk.new (t : ChunkType) (d : List Nat) : Chunk :=
  ⟨t, d⟩

/-- chunk.rs `length()`: payload byte count. -/
def Chunk.length (c : Chunk) : Nat :=
  c.data.length

/-- chunk.rs `crc()`: the memoized `compute_crc` over tag bytes then
payload. -/
def Chunk.crc (c : Chunk) : Nat :=
  compute_crc c.chunk_type.bytes c.data

/-- chunk.rs `MIN_CHUNK_SIZE` = length field + type field + crc field. -/
def Chunk.MIN_CHUNK_SIZE : Nat := 4 + 4 + 4

/-- Big-endian 4-byte encoding of the low 32 bits of a natural number
(each digit is a byte below 256). -/
def u32_to_be_bytes (n : Nat) : List Nat :=
  [n / 2 ^ 24 % 256, n / 2 ^ 16 % 256, n / 2 ^ 8 % 256, n % 256]

/-- Rust `u32::from_be_bytes` on four bytes. -/
def u32_from_be_bytes (a b c d : Nat) : Nat :=
  ((a * 256 + b) * 256 + c) * 256 + d

/-- chunk.rs `as_bytes()`: `length().to_be_bytes()[4..]` (the low four
bytes of the 8-byte usize, i.e. the length modulo `2 ^ 32` in big
endian), then the tag bytes, the payload, and the crc in big endian. -/
def Chunk.as_bytes (c : Chunk) : List Nat :=
  u32_to_be_bytes (c.length % 2 ^ 32) ++ c.chunk_type.bytes ++ c.data
    ++ u32_to_be_bytes c.crc

/-- chunk.rs `TryFrom<&[u8]>` error branches, one constructor per
distinct `anyhow!` site. -/
inductive ChunkError where
  | truncated (wanted got : Nat) : ChunkError
  | notFourBytes : ChunkError
  | tooShort : ChunkError
  | sizeMismatch (got declared : Nat) : ChunkError
  | badTag : ChunkError
  | trailing : ChunkError
  | crcMismatch (computed expected : Nat) : ChunkError
deriving DecidableEq

/-- chunk.rs `next_n_bytes`: take `n` bytes off the iterator (modelled as
the list of remaining bytes), failing when fewer than `n` remain; on
success also return the advanced iterator. -/
def next_n_bytes (it : List Nat) (n : Nat) :
    Except ChunkError (List Nat × List Nat) :=
  if (it.take n).length = n then
    Except.ok (it.take n, it.drop n)
  else
    Except.error (ChunkError.truncated n (it.take n).length)

/-- chunk.rs `next_four_bytes`: `next_n_bytes` with `n = 4` followed by
the `try_into` conversion to `[u8; 4]` (whose failure arm is
unreachable). -/
def next_four_bytes (it : List Nat) :
    Except ChunkError ((Nat × Nat × Nat × Nat) × List Nat) :=
  match next_n_bytes it 4 with
  | Except.error e => Except.error e
  | Except.ok (res, rest) =>
    match res with
    | [a, b, c, d] => Except.ok ((a, b, c, d), rest)
    | _ => Except.error ChunkError.notFourBytes

/-- chunk.rs `TryFrom<&[u8]> for Chunk`: reject inputs shorter than 12
bytes; read the declared content size; reject unless the total length is
exactly `content_size + 12`; read and validate the tag bytes; read the
payload and the stored crc; reject leftover bytes; recompute the crc and
reject a mismatch. -/
def Chunk.try_from (value : List Nat) : Except ChunkError Chunk :=
  if value.length < Chunk.MIN_CHUNK_SIZE then
    Except.error ChunkError.tooShort
  else
    match next_four_bytes value with
    | Except.error e => Except.error e
    | Except.ok ((a, b, c, d), it1) =>
      if value.length ≠ u32_from_be_bytes a b c d + Chunk.MIN_CHUNK_SIZE then
        Except.error (ChunkError.sizeMismatch value.length
          (u32_from_be_bytes a b c d))
      else
        match next_four_bytes it1 with
        | Except.error e => Except.error e
        | Except.ok ((t0, t1, t2, t3), it2) =>
          match ChunkType.try_from_bytes t0 t1 t2 t3 with
          | Except.error _ => Except.error ChunkError.badTag
          | Except.ok chunk_type =>
            match next_n_bytes it2 (u32_from_be_bytes a b c d) with
            | Except.error e => Except.error e
            | Except.ok (content, it3) =>
              match next_four_bytes it3 with
              | Except.error e => Except.error e
              | Except.ok ((e0, e1, e2, e3), it4) =>
                if it4 ≠ [] then
                  Except.error ChunkError.trailing
                else
                  if compute_crc chunk_type.bytes content ≠
                      u32_from_be_bytes e0 e1 e2 e3 then
                    Except.error (ChunkError.crcMismatch
                      (compute_crc chunk_type.bytes content)
                      (u32_from_be_bytes e0 e1 e2 e3))
                  else
                    Except.ok (Chunk.new chunk_type content)

/-- Recognizer for the trailing-bytes error branch of
`Chunk.try_from`. -/
def isTrailingError : Except ChunkError Chunk → Bool
  | Except.error ChunkError.trailing => true
  | _ => false

/-- Recognizer for parse success. -/
def exceptIsOk {ε α : Type} : Except ε α → Bool
  | Except.ok _ => true
  | Except.error _ => false

/-- Modelled from the spec: `png.rs` (the `Png` container) is not under
src/; spec section 4.3 defines `remove_by_tag` as a linear scan removing
and returning the first chunk whose tag's display form equals the
requested string, failing when no tag matches.  The requested string is
modelled by its byte list, and display-form equality of an ASCII tag by
equality of the four tag bytes with those bytes. -/
def removeFirstChunk (tag : List Nat) :
    List Chunk → Option (Chunk × List Chunk)
  | [] => none
  | c :: rest =>
    if ChunkType.bytes c.chunk_type = tag then
      some (c, rest)
    else
      match removeFirstChunk tag rest with
      | none => none
      | some (x, l) => some (x, c :: l)

/-- Modelled from the spec: the `Png` container of spec section 4.3, an
ordered sequence of chunks (the fixed 8-byte signature plays no role in
the claims settled here). -/
structure Png where
  chunks : List Chunk
deriving DecidableEq

/-- Modelled from the spec: `Png::remove_chunk`, spec section 4.3
`remove_by_tag`. -/
def Png.remove_chunk (p : Png) (tag : List Nat) : Option (Chunk × Png) :=
  match removeFirstChunk tag p.chunks with
  | none => none
  | some (c, rest) => some (c, ⟨rest⟩)

/-- main.rs `Command::Decode` branch: call `remove_chunk` with the
requested tag and print `data_as_string()` of the returned chunk (a
lossy UTF-8 decode of the payload bytes, modelled here by the payload
byte list).  The possibly mutated container is returned alongside to
expose the state main.rs holds after the call (which it does not write
back to the file). -/
def decode (p : Png) (tag : List Nat) : Option (List Nat × Png) :=
  match p.remove_chunk tag with
  | none => none
  | some (c, p2) => some (c.data, p2)

/-- The 42 payload bytes of the source tests' secret message, namely the
UTF-8 bytes of the sentence used in chunk.rs `testing_chunk`. -/
def secret_message : List Nat :=
  [84, 104, 105, 115, 32, 105, 115, 32, 119, 104, 101, 114, 101, 32,
   121, 111, 117, 114, 32, 115, 101, 99, 114, 101, 116, 32, 109, 101,
   115, 115, 97, 103, 101, 32, 119, 105, 108, 108, 32, 98, 101, 33]

/-- The tag bytes of the source tests' chunk type `RuSt`. -/
def rust_tag_bytes : List Nat := [82, 117, 83, 116]

/-- The big-endian 32-bit value of the first four bytes of a byte
stream, i.e. the declared payload length field of a chunk. -/
def declaredLength (v : List Nat) : Nat :=
  u32_from_be_bytes (v.getD 0 0) (v.getD 1 0) (v.getD 2 0) (v.getD 3 0)

theorem crc32_step_bit_lt {c : Nat} (h : c < 2 ^ 32) :
    crc32_step_bit c < 2 ^ 32 := by
  have h1 : c >>> 1 < 2 ^ 32 := by
    rw [Nat.shiftRight_eq_div_pow]
    omega
  unfold crc32_step_bit
  split
  · exact Nat.xor_lt_two_pow h1 (by norm_num [CRC32_POLY])
  · exact h1

theorem crc32_step_bit_inj {c1 c2 : Nat} (h1 : c1 < 2 ^ 32)
    (h2 : c2 < 2 ^ 32) (h : crc32_step_bit c1 = crc32_step_bit c2) :
    c1 = c2 := by
  unfold crc32_step_bit at h
  rw [Nat.shiftRight_eq_div_pow, Nat.shiftRight_eq_div_pow] at h
  have hpoly : Nat.testBit CRC32_POLY 31 = true := by decide
  by_cases p1 : c1 % 2 = 1 <;> by_cases p2 : c2 % 2 = 1
  · rw [if_pos p1, if_pos p2] at h
    have hx := congrArg (fun z => z ^^^ CRC32_POLY) h
    simp only [Nat.xor_cancel_right] at hx
    omega
  · exfalso
    rw [if_pos p1, if_neg p2] at h
    have hb : Nat.testBit (c1 / 2 ^ 1 ^^^ CRC32_POLY) 31
        = Nat.testBit (c2 / 2 ^ 1) 31 := by rw [h]
    rw [Nat.testBit_lt_two_pow (by omega : c2 / 2 ^ 1 < 2 ^ 31),
      Nat.testBit_xor,
      Nat.testBit_lt_two_pow (by omega : c1 / 2 ^ 1 < 2 ^ 31),
      hpoly] at hb
    simp at hb
  · exfalso
    rw [if_neg p1, if_pos p2] at h
    have hb : Nat.testBit (c1 / 2 ^ 1) 31
        = Nat.testBit (c2 / 2 ^ 1 ^^^ CRC32_POLY) 31 := by rw [h]
    rw [Nat.testBit_lt_two_pow (by omega : c1 / 2 ^ 1 < 2 ^ 31),
      Nat.testBit_xor,
      Nat.testBit_lt_two_pow (by omega : c2 / 2 ^ 1 < 2 ^ 31),
      hpoly] at hb
    simp at hb
  · rw [if_neg p1, if_neg p2] at h
    omega

theorem crc32_steps8_lt {x : Nat} (hx : x < 2 ^ 32) :
    crc32_step_bit (crc32_step_bit (crc32_step_bit (crc32_step_bit
      (crc32_step_bit (crc32_step_bit (crc32_step_bit
        (crc32_step_bit x))))))) < 2 ^ 32 :=
  crc32_step_bit_lt (crc32_step_bit_lt (crc32_step_bit_lt
    (crc32_step_bit_lt (crc32_step_bit_lt (crc32_step_bit_lt
      (crc32_step_bit_lt (crc32_step_bit_lt hx)))))))

theorem crc32_steps8_inj {x y : Nat} (hx : x < 2 ^ 32) (hy : y < 2 ^ 32)
    (h : crc32_step_bit (crc32_step_bit (crc32_step_bit (crc32_step_bit
          (crc32_step_bit (crc32_step_bit (crc32_step_bit
            (crc32_step_bit x)))))))
       = crc32_step_bit (crc32_step_bit (crc32_step_bit (crc32_step_bit
          (crc32_step_bit (crc32_step_bit (crc32_step_bit
            (crc32_step_bit y)))))))) : x = y := by
  have hx1 := crc32_step_bit_lt hx
  have hx2 := crc32_step_bit_lt hx1
  have hx3 := crc32_step_bit_lt hx2
  have hx4 := crc32_step_bit_lt hx3
  have hx5 := crc32_step_bit_lt hx4
  have hx6 := crc32_step_bit_lt hx5
  have hx7 := crc32_step_bit_lt hx6
  have hy1 := crc32_step_bit_lt hy
  have hy2 := crc32_step_bit_lt hy1
  have hy3 := crc32_step_bit_lt hy2
  have hy4 := crc32_step_bit_lt hy3
  have hy5 := crc32_step_bit_lt hy4
  have hy6 := crc32_step_bit_lt hy5
  have hy7 := crc32_step_bit_lt hy6
  exact crc32_step_bit_inj hx hy (crc32_step_bit_inj hx1 hy1
    (crc32_step_bit_inj hx2 hy2 (crc32_step_bit_inj hx3 hy3
      (crc32_step_bit_inj hx4 hy4 (crc32_step_bit_inj hx5 hy5
        (crc32_step_bit_inj hx6 hy6 (crc32_step_bit_inj hx7 hy7 h)))))))

theorem crc32_update_byte_lt {c b : Nat} (hc : c < 2 ^ 32)
    (hb : b < 2 ^ 32) : crc32_update_byte c b < 2 ^ 32 := by
  unfold crc32_update_byte
  exact crc32_steps8_lt (Nat.xor_lt_two_pow hc hb)

theorem crc32_update_byte_inj_right {c b1 b2 : Nat} (hc : c < 2 ^ 32)
    (hb1 : b1 < 2 ^ 32) (hb2 : b2 < 2 ^ 32)
    (h : crc32_update_byte c b1 = crc32_update_byte c b2) : b1 = b2 := by
  unfold crc32_update_byte at h
  have hx := crc32_steps8_inj (Nat.xor_lt_two_pow hc hb1)
    (Nat.xor_lt_two_pow hc hb2) h
  have := congrArg (fun z => c ^^^ z) hx
  simpa only [Nat.xor_cancel_left] using this

theorem crc32_update_byte_inj_left {c1 c2 b : Nat} (h1 : c1 < 2 ^ 32)
    (h2 : c2 < 2 ^ 32) (hb : b < 2 ^ 32)
    (h : crc32_update_byte c1 b = crc32_update_byte c2 b) : c1 = c2 := by
  unfold crc32_update_byte at h
  have hx := crc32_steps8_inj (Nat.xor_lt_two_pow h1 hb)
    (Nat.xor_lt_two_pow h2 hb) h
  have := congrArg (fun z => z ^^^ b) hx
  simpa only [Nat.xor_cancel_right] using this

theorem foldl_crc32_lt (l : List Nat) (hl : ∀ x ∈ l, x < 2 ^ 32)
    {c : Nat} (hc : c < 2 ^ 32) :
    l.foldl crc32_update_byte c < 2 ^ 32 := by
  induction l generalizing c with
  | nil => simpa using hc
  | cons a l ih =>
    simp only [List.foldl_cons]
    exact ih (fun x hx => hl x (List.mem_cons_of_mem _ hx))
      (crc32_update_byte_lt hc (hl a (List.mem_cons_self _ _)))

theorem foldl_crc32_inj (l : List Nat) (hl : ∀ x ∈ l, x < 2 ^ 32)
    {c1 c2 : Nat} (h1 : c1 < 2 ^ 32) (h2 : c2 < 2 ^ 32)
    (h : l.foldl crc32_update_byte c1 = l.foldl crc32_update_byte c2) :
    c1 = c2 := by
  induction l generalizing c1 c2 with
  | nil => simpa using h
  | cons a l ih =>
    simp only [List.foldl_cons] at h
    have ha : a < 2 ^ 32 := hl a (List.mem_cons_self _ _)
    have hrec := ih (fun x hx => hl x (List.mem_cons_of_mem _ hx))
      (crc32_update_byte_lt h1 ha) (crc32_update_byte_lt h2 ha) h
    exact crc32_update_byte_inj_left h1 h2 ha hrec

theorem crc32_raw_lt (l : List Nat) (hl : ∀ x ∈ l, x < 2 ^ 32) :
    crc32_raw l < 2 ^ 32 := by
  unfold crc32_raw
  exact Nat.xor_lt_two_pow (foldl_crc32_lt l hl (by norm_num))
    (by norm_num)

theorem compute_crc_lt (code data : List Nat)
    (h : ∀ x ∈ code ++ data, x < 2 ^ 32) :
    compute_crc code data < 2 ^ 32 :=
  crc32_raw_lt _ h

theorem crc32_raw_ne_of_single_byte (pre suf : List Nat) (x y : Nat)
    (hpre : ∀ a ∈ pre, a < 2 ^ 32) (hsuf : ∀ a ∈ suf, a < 2 ^ 32)
    (hx : x < 2 ^ 32) (hy : y < 2 ^ 32) (hxy : x ≠ y) :
    crc32_raw (pre ++ x :: suf) ≠ crc32_raw (pre ++ y :: suf) := by
  intro h
  unfold crc32_raw at h
  have h2 : (pre ++ x :: suf).foldl crc32_update_byte 0xFFFFFFFF
      = (pre ++ y :: suf).foldl crc32_update_byte 0xFFFFFFFF := by
    have := congrArg (fun z => z ^^^ 0xFFFFFFFF) h
    simpa only [Nat.xor_cancel_right] using this
  rw [List.foldl_append, List.foldl_append, List.foldl_cons,
    List.foldl_cons] at h2
  have hAlt : pre.foldl crc32_update_byte 0xFFFFFFFF < 2 ^ 32 :=
    foldl_crc32_lt pre hpre (by norm_num)
  have h3 := foldl_crc32_inj suf hsuf
    (crc32_update_byte_lt hAlt hx) (crc32_update_byte_lt hAlt hy) h2
  exact hxy (crc32_update_byte_inj_right hAlt hx hy h3)

theorem u32_to_be_bytes_length (n : Nat) : (u32_to_be_bytes n).length = 4 :=
  rfl

theorem u32_roundtrip (n : Nat) (h : n < 2 ^ 32) :
    u32_from_be_bytes (n / 2 ^ 24 % 256) (n / 2 ^ 16 % 256)
      (n / 2 ^ 8 % 256) (n % 256) = n := by
  unfold u32_from_be_bytes
  omega

theorem next_four_bytes_cons (a b c d : Nat) (r : List Nat) :
    next_four_bytes (a :: b :: c :: d :: r) = Except.ok ((a, b, c, d), r) :=
  rfl

theorem next_n_bytes_append (p r : List Nat) :
    next_n_bytes (p ++ r) p.length = Except.ok (p, r) := by
  unfold next_n_bytes
  rw [List.take_left, List.drop_left]
  simp

/-- Evaluation of `Chunk.try_from` on a byte stream in the exact wire
layout: length field, four alphabetic tag bytes, payload, stored
checksum field.  The parse reaches the checksum comparison and succeeds
or fails there. -/
theorem try_from_layout (t0 t1 t2 t3 : Nat) (d : List Nat) (st : Nat)
    (halpha : ChunkType.is_valid_chunk_type [t0, t1, t2, t3] = true)
    (hd : d.length < 2 ^ 32) (hst : st < 2 ^ 32) :
    Chunk.try_from (u32_to_be_bytes d.length ++ [t0, t1, t2, t3] ++ d
        ++ u32_to_be_bytes st)
      = if compute_crc [t0, t1, t2, t3] d = st
        then Except.ok (Chunk.new (ChunkType.mk t0 t1 t2 t3) d)
        else Except.error (ChunkError.crcMismatch
          (compute_crc [t0, t1, t2, t3] d) st) := by
  have hsplit : u32_to_be_bytes d.length ++ [t0, t1, t2, t3] ++ d
      ++ u32_to_be_bytes st
      = (d.length / 2 ^ 24 % 256) :: (d.length / 2 ^ 16 % 256)
        :: (d.length / 2 ^ 8 % 256) :: (d.length % 256)
        :: t0 :: t1 :: t2 :: t3 :: (d ++ u32_to_be_bytes st) := by
    simp [u32_to_be_bytes]
  have hrt1 := u32_roundtrip d.length hd
  have hrt2 := u32_roundtrip st hst
  rw [hsplit]
  simp only [Chunk.try_from, next_four_bytes_cons, hrt1]
  have hL : (d.length / 2 ^ 24 % 256 :: d.length / 2 ^ 16 % 256
      :: d.length / 2 ^ 8 % 256 :: d.length % 256
      :: t0 :: t1 :: t2 :: t3 :: (d ++ u32_to_be_bytes st)).length
      = d.length + 12 := by
    simp [u32_to_be_bytes]
  rw [hL]
  rw [if_neg (by simp only [Chunk.MIN_CHUNK_SIZE]; omega)]
  rw [if_neg (by simp only [Chunk.MIN_CHUNK_SIZE]; omega)]
  simp only [ChunkType.try_from_bytes, halpha, eq_self_iff_true, if_true,
    ite_true, next_n_bytes_append, u32_to_be_bytes, next_four_bytes_cons,
    hrt2, ChunkType.bytes, ne_eq, not_true, ite_false, not_false_iff]
  by_cases hc : compute_crc [t0, t1, t2, t3] d = st
  · rw [if_neg (not_not_intro hc), if_pos hc]
  · rw [if_pos hc, if_neg hc]

theorem isAsciiAlphabetic_lt {x : Nat} (h : isAsciiAlphabetic x = true) :
    x < 2 ^ 32 := by
  unfold isAsciiAlphabetic at h
  simp only [Bool.or_eq_true, Bool.and_eq_true, decide_eq_true_eq] at h
  omega

theorem valid_chunk_type_bytes_lt {l : List Nat}
    (h : ChunkType.is_valid_chunk_type l = true) : ∀ x ∈ l, x < 2 ^ 32 := by
  intro x hx
  unfold ChunkType.is_valid_chunk_type at h
  exact isAsciiAlphabetic_lt (List.all_eq_true.mp h x hx)

theorem chunk_min_size : Chunk.MIN_CHUNK_SIZE = 12 := rfl

theorem try_from_str_four (a b c d : Nat) :
    ChunkType.try_from_str [a, b, c, d] = ChunkType.try_from_bytes a b c d :=
  rfl

theorem next_n_bytes_ok_inv {it : List Nat} {n : Nat} {res rest : List Nat}
    (h : next_n_bytes it n = Except.ok (res, rest)) :
    res = it.take n ∧ rest = it.drop n ∧ n ≤ it.length := by
  unfold next_n_bytes at h
  split at h
  · rename_i hlen
    simp only [Except.ok.injEq, Prod.mk.injEq] at h
    obtain ⟨h1, h2⟩ := h
    refine ⟨h1.symm, h2.symm, ?_⟩
    rw [List.length_take] at hlen
    omega
  · simp at h

theorem next_n_bytes_error_shape {it : List Nat} {n : Nat} {e : ChunkError}
    (h : next_n_bytes it n = Except.error e) :
    ∃ w g, e = ChunkError.truncated w g := by
  unfold next_n_bytes at h
  split at h
  · simp at h
  · simp only [Except.error.injEq] at h
    exact ⟨_, _, h.symm⟩

theorem next_four_bytes_ok_shape {it : List Nat} {a b c d : Nat}
    {rest : List Nat}
    (h : next_four_bytes it = Except.ok ((a, b, c, d), rest)) :
    it = a :: b :: c :: d :: rest := by
  rcases it with _ | ⟨x0, _ | ⟨x1, _ | ⟨x2, _ | ⟨x3, r⟩⟩⟩⟩
  · exact Except.noConfusion h
  · exact Except.noConfusion h
  · exact Except.noConfusion h
  · exact Except.noConfusion h
  · rw [next_four_bytes_cons] at h
    simp only [Except.ok.injEq, Prod.mk.injEq] at h
    obtain ⟨⟨ha, hb, hc, hd⟩, hr⟩ := h
    subst ha; subst hb; subst hc; subst hd; subst hr
    rfl

theorem next_four_bytes_error_not_trailing {it : List Nat} {e : ChunkError}
    (h : next_four_bytes it = Except.error e) : e ≠ ChunkError.trailing := by
  unfold next_four_bytes at h
  cases hnb : next_n_bytes it 4 with
  | error e2 =>
    rw [hnb] at h
    simp only [Except.error.injEq] at h
    obtain ⟨w, g, hw⟩ := next_n_bytes_error_shape hnb
    subst h
    rw [hw]
    intro hcon
    exact ChunkError.noConfusion hcon
  | ok pr =>
    obtain ⟨res, rest⟩ := pr
    rw [hnb] at h
    rcases res with _ | ⟨x0, _ | ⟨x1, _ | ⟨x2, _ | ⟨x3, _ | ⟨x4, r⟩⟩⟩⟩⟩
    case cons.cons.cons.cons.nil => exact Except.noConfusion h
    all_goals
      simp only [Except.error.injEq] at h
    all_goals
      subst h
    all_goals
      decide

theorem isTrailingError_error {e : ChunkError}
    (h : e ≠ ChunkError.trailing) :
    isTrailingError (Except.error e) = false := by
  cases e
  case trailing => exact absurd rfl h
  all_goals rfl

theorem bit5_zero_eq (x : Nat) :
    ((x >>> 5) &&& 1 == 0) = !(x.testBit 5) := by
  rw [Nat.and_one_is_mod, Nat.shiftRight_eq_div_pow, Nat.testBit_to_div_mod]
  rcases Nat.mod_two_eq_zero_or_one (x / 2 ^ 5) with h | h <;> rw [h] <;> rfl

theorem bit5_one_eq (x : Nat) :
    ((x >>> 5) &&& 1 == 1) = x.testBit 5 := by
  rw [Nat.and_one_is_mod, Nat.shiftRight_eq_div_pow, Nat.testBit_to_div_mod]
  rcases Nat.mod_two_eq_zero_or_one (x / 2 ^ 5) with h | h <;> rw [h] <;> rfl

/-- C1: for every chunk built from an ASCII-alphabetic 4-byte tag and a
byte payload of length below `2 ^ 32`, parsing the serialization
succeeds and returns the original chunk, hence the same tag bytes, the
same payload, and the same checksum. -/
theorem chunk_parse_serialize_roundtrip (t : ChunkType) (p : List Nat)
    (ht : ChunkType.is_valid_chunk_type t.bytes = true)
    (hp : p.length < 2 ^ 32) (hpb : ∀ x ∈ p, x < 256) :
    Chunk.try_from (Chunk.as_bytes (Chunk.new t p))
      = Except.ok (Chunk.new t p) := by
  obtain ⟨t0, t1, t2, t3⟩ := t
  have hbt : ChunkType.bytes (ChunkType.mk t0 t1 t2 t3) = [t0, t1, t2, t3] :=
    rfl
  rw [hbt] at ht
  have hcrc : compute_crc [t0, t1, t2, t3] p < 2 ^ 32 := by
    apply compute_crc_lt
    intro x hx
    rcases List.mem_append.mp hx with h1 | h2
    · exact valid_chunk_type_bytes_lt ht x h1
    · have := hpb x h2
      omega
  have hser : Chunk.as_bytes (Chunk.new (ChunkType.mk t0 t1 t2 t3) p)
      = u32_to_be_bytes p.length ++ [t0, t1, t2, t3] ++ p
        ++ u32_to_be_bytes (compute_crc [t0, t1, t2, t3] p) := by
    simp only [Chunk.as_bytes, Chunk.new, Chunk.length, Chunk.crc,
      ChunkType.bytes]
    rw [Nat.mod_eq_of_lt hp]
  rw [hser, try_from_layout t0 t1 t2 t3 p _ ht hp hcrc, if_pos rfl]

/-- C1 witness: the roundtrip theorem applied to the tag RuSt and the
payload [1, 2, 3]. -/
theorem chunk_parse_serialize_roundtrip_witness :
    Chunk.try_from (Chunk.as_bytes
        (Chunk.new (ChunkType.mk 82 117 83 116) [1, 2, 3]))
      = Except.ok (Chunk.new (ChunkType.mk 82 117 83 116) [1, 2, 3]) :=
  chunk_parse_serialize_roundtrip (ChunkType.mk 82 117 83 116) [1, 2, 3]
    (by decide) (by decide) (by decide)

/-- C2: serialize emits exactly the 4-byte big-endian length, the 4 tag
bytes, the payload, and the 4-byte big-endian CRC-32/ISO-HDLC checksum
of tag bytes followed by payload, in that order, with total length
payload length + 12. -/
theorem chunk_as_bytes_layout (c : Chunk) (h : c.data.length < 2 ^ 32) :
    c.as_bytes = u32_to_be_bytes c.data.length ++ c.chunk_type.bytes
        ++ c.data ++ u32_to_be_bytes (compute_crc c.chunk_type.bytes c.data)
      ∧ c.as_bytes.length = c.data.length + 12 := by
  have h1 : c.as_bytes = u32_to_be_bytes c.data.length ++ c.chunk_type.bytes
      ++ c.data
      ++ u32_to_be_bytes (compute_crc c.chunk_type.bytes c.data) := by
    simp only [Chunk.as_bytes, Chunk.length, Chunk.crc]
    rw [Nat.mod_eq_of_lt h]
  refine ⟨h1, ?_⟩
  rw [h1]
  simp only [List.length_append, u32_to_be_bytes_length, ChunkType.bytes,
    List.length_cons, List.length_nil]
  omega

/-- C2 witness: the layout theorem applied to a concrete chunk with tag
RuSt and payload [1, 2, 3]. -/
theorem chunk_as_bytes_layout_witness :
    Chunk.as_bytes (Chunk.new (ChunkType.mk 82 117 83 116) [1, 2, 3])
      = u32_to_be_bytes 3 ++ [82, 117, 83, 116] ++ [1, 2, 3]
        ++ u32_to_be_bytes (compute_crc [82, 117, 83, 116] [1, 2, 3])
      ∧ (Chunk.as_bytes
          (Chunk.new (ChunkType.mk 82 117 83 116) [1, 2, 3])).length
        = 3 + 12 :=
  chunk_as_bytes_layout (Chunk.new (ChunkType.mk 82 117 83 116) [1, 2, 3])
    (by decide)

/-- C4 counterexample: construction of a tag from 4 raw bytes is not
unconditional — on the bytes (82, 117, 49, 116), the string Ru1t whose
third byte is not ASCII alphabetic, `try_from_bytes` fails (as the
source's own test suite also checks). -/
theorem tag_construct_not_unconditional_cex :
    ChunkType.try_from_bytes 82 117 49 116
      = Except.error TagError.formatError := rfl

/-- C4 amended: construction of a ChunkType from 4 raw bytes succeeds
exactly when all four bytes are ASCII alphabetic; the reserved-bit part
of validity is not a construction precondition, so a successfully
constructed tag (Rust here) can still report is_valid false. -/
theorem tag_construct_ok_iff_alpha (a b c d : Nat) :
    exceptIsOk (ChunkType.try_from_bytes a b c d)
      = ChunkType.is_valid_chunk_type [a, b, c, d]
    ∧ (ChunkType.try_from_bytes 82 117 115 116
        = Except.ok (ChunkType.mk 82 117 115 116)
       ∧ ChunkType.is_valid (ChunkType.mk 82 117 115 116) = false) := by
  refine ⟨?_, rfl, rfl⟩
  unfold ChunkType.try_from_bytes
  by_cases h : ChunkType.is_valid_chunk_type [a, b, c, d] = true
  · rw [if_pos h, h]
    rfl
  · rw [if_neg h]
    rw [Bool.not_eq_true] at h
    rw [h]
    rfl

/-- C5: parsing a tag from a string (modelled by its UTF-8 byte list)
fails when the byte length is not 4, fails when a byte is not ASCII
alphabetic, and succeeds on 4 alphabetic bytes with `bytes()` equal to
the input bytes. -/
theorem tag_from_str_spec (s : List Nat) :
    (s.length ≠ 4 → exceptIsOk (ChunkType.try_from_str s) = false)
    ∧ (s.length = 4 → (∃ b ∈ s, isAsciiAlphabetic b = false) →
        exceptIsOk (ChunkType.try_from_str s) = false)
    ∧ (s.length = 4 → (∀ b ∈ s, isAsciiAlphabetic b = true) →
        ∃ t, ChunkType.try_from_str s = Except.ok t
          ∧ ChunkType.bytes t = s) := by
  refine ⟨?_, ?_, ?_⟩
  · intro h
    unfold ChunkType.try_from_str
    rw [if_neg h]
    rfl
  · intro hlen hbad
    obtain ⟨x, hx, hxf⟩ := hbad
    rcases s with _ | ⟨a, _ | ⟨b, _ | ⟨c, _ | ⟨d, _ | ⟨e2, rest⟩⟩⟩⟩⟩
    · simp at hlen
    · simp at hlen
    · simp at hlen
    · simp at hlen
    · rw [try_from_str_four]
      unfold ChunkType.try_from_bytes
      rw [if_neg]
      · rfl
      · intro hall
        have := List.all_eq_true.mp hall x hx
        unfold ChunkType.is_valid_byte at this
        rw [hxf] at this
        exact Bool.false_ne_true this
    · simp only [List.length_cons, List.length_nil] at hlen
      omega
  · intro hlen hall
    rcases s with _ | ⟨a, _ | ⟨b, _ | ⟨c, _ | ⟨d, _ | ⟨e2, rest⟩⟩⟩⟩⟩
    · simp at hlen
    · simp at hlen
    · simp at hlen
    · simp at hlen
    · rw [try_from_str_four]
      unfold ChunkType.try_from_bytes
      rw [if_pos]
      · exact ⟨ChunkType.mk a b c d, rfl, rfl⟩
      · exact List.all_eq_true.mpr fun x hx => hall x hx
    · simp only [List.length_cons, List.length_nil] at hlen
      omega

/-- C5 witness: the string-parsing theorem applied to the byte lists of
R (wrong length), Ru1t (non-alphabetic byte), and RuSt (valid). -/
theorem tag_from_str_spec_witness :
    exceptIsOk (ChunkType.try_from_str [82]) = false
    ∧ exceptIsOk (ChunkType.try_from_str [82, 117, 49, 116]) = false
    ∧ ∃ t, ChunkType.try_from_str [82, 117, 83, 116] = Except.ok t
        ∧ ChunkType.bytes t = [82, 117, 83, 116] :=
  ⟨(tag_from_str_spec [82]).1 (by decide),
   (tag_from_str_spec [82, 117, 49, 116]).2.1 (by decide)
     ⟨49, by decide, by decide⟩,
   (tag_from_str_spec [82, 117, 83, 116]).2.2 (by decide) (by decide)⟩

/-- C6: the four flag accessors read exactly bit 5 of bytes 0 to 3
(byte 3 with inverted sense), is_valid is the all-alphabetic check
conjoined with the reserved-bit check, and concretely RuSt is critical,
not public, reserved-bit-valid and safe to copy, while Rust has
is_valid false. -/
theorem tag_bit_semantics (t : ChunkType) :
    (t.is_critical = !(t.b0.testBit 5))
    ∧ (t.is_public = !(t.b1.testBit 5))
    ∧ (t.is_reserved_bit_valid = !(t.b2.testBit 5))
    ∧ (t.is_safe_to_copy = t.b3.testBit 5)
    ∧ (t.is_valid
        = (t.bytes.all isAsciiAlphabetic && t.is_reserved_bit_valid))
    ∧ (ChunkType.is_critical (ChunkType.mk 82 117 83 116) = true
       ∧ ChunkType.is_public (ChunkType.mk 82 117 83 116) = false
       ∧ ChunkType.is_reserved_bit_valid (ChunkType.mk 82 117 83 116) = true
       ∧ ChunkType.is_safe_to_copy (ChunkType.mk 82 117 83 116) = true
       ∧ ChunkType.is_valid (ChunkType.mk 82 117 115 116) = false) :=
  ⟨bit5_zero_eq t.b0, bit5_zero_eq t.b1, bit5_zero_eq t.b2,
   bit5_one_eq t.b3, rfl, by decide, by decide, by decide, by decide,
   by decide⟩

/-- C3: Chunk.try_from fails on every input shorter than 12 bytes,
fails on every input whose total length differs from the declared
length (big-endian value of the first 4 bytes) plus 12, and returns a
chunk only when the total length matches that value exactly. -/
theorem chunk_try_from_length_spec (v : List Nat) :
    (v.length < 12 → Chunk.try_from v = Except.error ChunkError.tooShort)
    ∧ (v.length ≠ declaredLength v + 12 →
        exceptIsOk (Chunk.try_from v) = false)
    ∧ (∀ c, Chunk.try_from v = Except.ok c →
        v.length = declaredLength v + 12) := by
  have hshort : v.length < 12 →
      Chunk.try_from v = Except.error ChunkError.tooShort := by
    intro h
    unfold Chunk.try_from
    rw [if_pos (by rw [chunk_min_size]; exact h)]
  have hfail : v.length ≠ declaredLength v + 12 →
      exceptIsOk (Chunk.try_from v) = false := by
    intro hne
    by_cases hlt : v.length < 12
    · rw [hshort hlt]
      rfl
    · rcases v with _ | ⟨a, _ | ⟨b, _ | ⟨c, _ | ⟨d, r⟩⟩⟩⟩
      · simp at hlt
      · simp at hlt
      · simp at hlt
      · simp at hlt
      · have hdl : declaredLength (a :: b :: c :: d :: r)
            = u32_from_be_bytes a b c d := rfl
        have hcond : (a :: b :: c :: d :: r).length
            ≠ u32_from_be_bytes a b c d + Chunk.MIN_CHUNK_SIZE := by
          rw [chunk_min_size, ← hdl]
          exact hne
        unfold Chunk.try_from
        rw [if_neg (by rw [chunk_min_size]; exact hlt)]
        simp only [next_four_bytes_cons]
        rw [if_pos hcond]
        rfl
  refine ⟨hshort, hfail, ?_⟩
  intro c hok
  by_contra hne
  have h2 := hfail hne
  rw [hok] at h2
  simp [exceptIsOk] at h2

/-- C3 witness: the length theorem applied to the 1-byte input [0]
(too short and mismatched) and to a well-formed empty-payload RuSt
chunk stream (successful parse with exact length). -/
theorem chunk_try_from_length_spec_witness :
    Chunk.try_from [0] = Except.error ChunkError.tooShort
    ∧ exceptIsOk (Chunk.try_from [0]) = false
    ∧ (Chunk.as_bytes (Chunk.new (ChunkType.mk 82 117 83 116) [])).length
      = declaredLength
          (Chunk.as_bytes (Chunk.new (ChunkType.mk 82 117 83 116) []))
        + 12 :=
  ⟨(chunk_try_from_length_spec [0]).1 (by decide),
   (chunk_try_from_length_spec [0]).2.1 (by decide),
   (chunk_try_from_length_spec _).2.2
     (Chunk.new (ChunkType.mk 82 117 83 116) []) rfl⟩

/-- C9: the trailing-bytes error branch of Chunk.try_from is
unreachable — for every input, the parse result is never that error,
because the earlier exact-length check pins the iterator to the end of
the input after the checksum field. -/
theorem trailing_branch_unreachable (v : List Nat) :
    isTrailingError (Chunk.try_from v) = false := by
  unfold Chunk.try_from
  by_cases hlt : v.length < Chunk.MIN_CHUNK_SIZE
  · rw [if_pos hlt]
    rfl
  rw [if_neg hlt]
  cases h1 : next_four_bytes v with
  | error e =>
    exact isTrailingError_error (next_four_bytes_error_not_trailing h1)
  | ok pr =>
    obtain ⟨⟨a, b, c, d⟩, it1⟩ := pr
    dsimp only
    by_cases hsz : v.length
        ≠ u32_from_be_bytes a b c d + Chunk.MIN_CHUNK_SIZE
    · rw [if_pos hsz]
      rfl
    rw [if_neg hsz]
    cases h2 : next_four_bytes it1 with
    | error e =>
      exact isTrailingError_error (next_four_bytes_error_not_trailing h2)
    | ok pr2 =>
      obtain ⟨⟨t0, t1, t2, t3⟩, it2⟩ := pr2
      dsimp only
      cases h3 : ChunkType.try_from_bytes t0 t1 t2 t3 with
      | error e => rfl
      | ok ct =>
        dsimp only
        cases h4 : next_n_bytes it2 (u32_from_be_bytes a b c d) with
        | error e =>
          obtain ⟨w, g, hw⟩ := next_n_bytes_error_shape h4
          subst hw
          rfl
        | ok pr3 =>
          obtain ⟨content, it3⟩ := pr3
          dsimp only
          cases h5 : next_four_bytes it3 with
          | error e =>
            exact isTrailingError_error
              (next_four_bytes_error_not_trailing h5)
          | ok pr4 =>
            obtain ⟨⟨e0, e1, e2, e3⟩, it4⟩ := pr4
            dsimp only
            have hv := next_four_bytes_ok_shape h1
            have hit1 := next_four_bytes_ok_shape h2
            obtain ⟨hc1, hc2, hc3⟩ := next_n_bytes_ok_inv h4
            have hit3 := next_four_bytes_ok_shape h5
            have hsz2 : v.length
                = u32_from_be_bytes a b c d + Chunk.MIN_CHUNK_SIZE :=
              not_ne_iff.mp hsz
            have hlen4 : it4 = [] := by
              have hl1 : v.length = 4 + it1.length := by
                rw [hv]
                simp only [List.length_cons]
                omega
              have hl2 : it1.length = 4 + it2.length := by
                rw [hit1]
                simp only [List.length_cons]
                omega
              have hl3 : it3.length
                  = it2.length - u32_from_be_bytes a b c d := by
                rw [hc2, List.length_drop]
              have hl4 : it3.length = 4 + it4.length := by
                rw [hit3]
                simp only [List.length_cons]
                omega
              rw [chunk_min_size] at hsz2
              have : it4.length = 0 := by omega
              exact List.length_eq_zero.mp this
            rw [if_neg (not_not_intro hlen4)]
            split
            · rfl
            · rfl

/-- C10: chunk parsing enforces only the ASCII-alphabetic check on the
tag — a well-formed stream whose tag bytes are alphabetic but violate
the reserved-bit invariant still parses successfully, and the parsed
chunk's tag reports is_valid false. -/
theorem parse_ignores_reserved_bit (t0 t1 t2 t3 : Nat) (d : List Nat)
    (halpha : ChunkType.is_valid_chunk_type [t0, t1, t2, t3] = true)
    (hres : ChunkType.is_reserved_bit_valid (ChunkType.mk t0 t1 t2 t3)
      = false)
    (hd : d.length < 2 ^ 32) (hdb : ∀ x ∈ d, x < 256) :
    ∃ c, Chunk.try_from (u32_to_be_bytes d.length ++ [t0, t1, t2, t3] ++ d
          ++ u32_to_be_bytes (compute_crc [t0, t1, t2, t3] d))
        = Except.ok c
      ∧ ChunkType.is_valid c.chunk_type = false := by
  have hcrc : compute_crc [t0, t1, t2, t3] d < 2 ^ 32 := by
    apply compute_crc_lt
    intro x hx
    rcases List.mem_append.mp hx with h1 | h2
    · exact valid_chunk_type_bytes_lt halpha x h1
    · have := hdb x h2
      omega
  refine ⟨Chunk.new (ChunkType.mk t0 t1 t2 t3) d, ?_, ?_⟩
  · rw [try_from_layout t0 t1 t2 t3 d _ halpha hd hcrc, if_pos rfl]
  · show ChunkType.is_valid (ChunkType.mk t0 t1 t2 t3) = false
    unfold ChunkType.is_valid
    rw [hres]
    exact Bool.and_false _

/-- C10 witness: the theorem applied to the tag Rust (alphabetic,
reserved bit invalid) with payload [7]. -/
theorem parse_ignores_reserved_bit_witness :
    ∃ c, Chunk.try_from (u32_to_be_bytes 1 ++ [82, 117, 115, 116] ++ [7]
          ++ u32_to_be_bytes (compute_crc [82, 117, 115, 116] [7]))
        = Except.ok c
      ∧ ChunkType.is_valid c.chunk_type = false :=
  parse_ignores_reserved_bit 82 117 115 116 [7] (by decide) (by decide)
    (by decide) (by decide)

theorem removeFirstChunk_spec (tag : List Nat) (pre post : List Chunk)
    (c : Chunk)
    (hpre : ∀ x ∈ pre, ChunkType.bytes x.chunk_type ≠ tag)
    (hc : ChunkType.bytes c.chunk_type = tag) :
    removeFirstChunk tag (pre ++ c :: post) = some (c, pre ++ post) := by
  induction pre with
  | nil =>
    rw [List.nil_append, List.nil_append]
    unfold removeFirstChunk
    rw [if_pos hc]
  | cons p pre ih =>
    rw [List.cons_append]
    unfold removeFirstChunk
    rw [if_neg (hpre p (List.mem_cons_self _ _)),
      ih (fun x hx => hpre x (List.mem_cons_of_mem _ hx))]
    rfl

/-- C8 counterexample: decode on a container holding a single RuSt
chunk succeeds, but the container it leaves behind no longer holds the
original chunk sequence — the matched chunk has been removed. -/
theorem decode_mutates_container_cex :
    ∃ msg png2,
      decode (Png.mk [Chunk.new (ChunkType.mk 82 117 83 116) [1, 2, 3]])
          [82, 117, 83, 116]
        = some (msg, png2)
      ∧ png2.chunks
        ≠ [Chunk.new (ChunkType.mk 82 117 83 116) [1, 2, 3]] :=
  ⟨[1, 2, 3], Png.mk [], rfl, by decide⟩

/-- C8 amended: decode returns the payload of the first chunk whose tag
matches the requested tag string, but it mutates the in-memory
container by removing that chunk (main.rs calls remove_chunk and does
not write the container back to the file in the decode branch). -/
theorem decode_removes_first_match (pre post : List Chunk) (c : Chunk)
    (tag : List Nat)
    (hpre : ∀ x ∈ pre, ChunkType.bytes x.chunk_type ≠ tag)
    (hc : ChunkType.bytes c.chunk_type = tag) :
    decode (Png.mk (pre ++ c :: post)) tag
      = some (c.data, Png.mk (pre ++ post)) := by
  unfold decode Png.remove_chunk
  rw [removeFirstChunk_spec tag pre post c hpre hc]

/-- C8 amended witness: decoding RuSt from a two-chunk container
returns the RuSt payload and the container without that chunk. -/
theorem decode_removes_first_match_witness :
    decode (Png.mk [Chunk.new (ChunkType.mk 65 65 65 97) [5],
        Chunk.new (ChunkType.mk 82 117 83 116) [9]]) [82, 117, 83, 116]
      = some ([9], Png.mk [Chunk.new (ChunkType.mk 65 65 65 97) [5]]) :=
  decode_removes_first_match [Chunk.new (ChunkType.mk 65 65 65 97) [5]]
    [] (Chunk.new (ChunkType.mk 82 117 83 116) [9]) [82, 117, 83, 116]
    (by decide) (by decide)

/-- C7: the RuSt chunk with the 42-byte secret-message payload has
checksum 2882656334, and changing any single payload byte to a
different byte value changes the recomputed checksum, so parsing the
mutated stream that still stores checksum 2882656334 fails with the
checksum-mismatch error. -/
theorem crc_concrete_and_mutation_detect (i b : Nat)
    (hi : i < secret_message.length) (hb : b < 256)
    (hne : b ≠ secret_message.get ⟨i, hi⟩) :
    compute_crc rust_tag_bytes secret_message = 2882656334
    ∧ compute_crc rust_tag_bytes (secret_message.set i b) ≠ 2882656334
    ∧ Chunk.try_from (u32_to_be_bytes 42 ++ rust_tag_bytes
        ++ secret_message.set i b ++ u32_to_be_bytes 2882656334)
      = Except.error (ChunkError.crcMismatch
          (compute_crc rust_tag_bytes (secret_message.set i b))
          2882656334) := by
  have hcrc : compute_crc rust_tag_bytes secret_message = 2882656334 := by
    set_option maxRecDepth 100000 in decide
  have hmem : ∀ x ∈ secret_message, x < 2 ^ 32 := by decide
  have htag : ∀ x ∈ rust_tag_bytes, x < 2 ^ 32 := by decide
  have horig : secret_message
      = secret_message.take i ++ secret_message.get ⟨i, hi⟩
        :: secret_message.drop (i + 1) := by
    conv_lhs => rw [← List.take_append_drop i secret_message,
      List.drop_eq_getElem_cons hi]
    rfl
  have hset : secret_message.set i b
      = secret_message.take i ++ b :: secret_message.drop (i + 1) := by
    rw [List.set_eq_take_append_cons_drop, if_pos hi]
  have hdiff : compute_crc rust_tag_bytes (secret_message.set i b)
      ≠ compute_crc rust_tag_bytes secret_message := by
    unfold compute_crc
    rw [hset]
    conv_rhs => rw [horig]
    rw [← List.append_assoc, ← List.append_assoc]
    apply crc32_raw_ne_of_single_byte
    · intro a ha
      rcases List.mem_append.mp ha with h1 | h2
      · exact htag a h1
      · exact hmem a (List.mem_of_mem_take h2)
    · intro a ha
      exact hmem a (List.mem_of_mem_drop ha)
    · omega
    · exact hmem _ (List.get_mem secret_message i hi)
    · exact hne
  have hL42 : (secret_message.set i b).length = 42 := by
    rw [List.length_set]
    rfl
  have hdiff2 : compute_crc rust_tag_bytes (secret_message.set i b)
      ≠ 2882656334 := by
    rw [← hcrc]
    exact hdiff
  refine ⟨hcrc, hdiff2, ?_⟩
  have hparse := try_from_layout 82 117 83 116 (secret_message.set i b)
    2882656334 (by decide) (by rw [hL42]; decide) (by decide)
  have hdiff3 : compute_crc [82, 117, 83, 116] (secret_message.set i b)
      ≠ 2882656334 := hdiff2
  rw [if_neg hdiff3] at hparse
  rw [hL42] at hparse
  exact hparse

/-- C7 witness: the mutation theorem applied at position 0 with
replacement byte 0. -/
theorem crc_concrete_and_mutation_detect_witness :
    compute_crc rust_tag_bytes secret_message = 2882656334
    ∧ compute_crc rust_tag_bytes (secret_message.set 0 0) ≠ 2882656334
    ∧ Chunk.try_from (u32_to_be_bytes 42 ++ rust_tag_bytes
        ++ secret_message.set 0 0 ++ u32_to_be_bytes 2882656334)
      = Except.error (ChunkError.crcMismatch
          (compute_crc rust_tag_bytes (secret_message.set 0 0))
          2882656334) :=
  crc_concrete_and_mutation_detect 0 0 (by decide) (by decide)
    (by decide)

end Pngme
